import Mathlib

/-!
Shallow embedding of the MSP430 DCO calibration program (src/main.c,
src/NewDCOCal.h) together with proofs about the claims of its
specification.

The hardware measurement is abstracted as a function
`meas : Nat → Nat → Nat → Nat` giving, for a configuration
(rsel, dco, mod), the value the global `AveragedDifference` holds after
`setDCO(rsel,dco,mod)` returns.  `AveragedDifference` is a 16-bit
`unsigned int` in the C program.  The one `unsigned` subtraction that
can genuinely wrap (the special-case comparison of the modulation
phase) is modelled by `usub16`; the remaining subtractions are guarded
by a comparison in the source, cannot wrap, and are modelled by
truncated `Nat` subtraction, which agrees with the machine there.
-/

namespace DCOCal

/-- NCAP from main.c: number of captures averaged per measurement. -/
def NCAP : Nat := 50

/-- MAX_CYCLES from main.c: retry ceiling per target frequency. -/
def MAX_CYCLES : Nat := 10

/-- GoalN from main.c: goal counter values for the nine target frequencies. -/
def GoalN : List Nat := [977, 1953, 3906, 7813, 11719, 15625, 19531, 23438, 31250]

/-- 16-bit unsigned subtraction `a - b` as computed by the C program on
`unsigned int` operands (faithful whenever `a b < 65536`). -/
def usub16 (a b : Nat) : Nat := (a + 65536 - b) % 65536

/-- A C `for` loop `for(i=start; i<start+fuel; i++) { if (p i) break; }`:
returns the first index at which `p` holds, or `start + fuel` when the
loop exhausts.  All three scans of `searchGoal` are instances of it. -/
def scanLoop (p : Nat → Bool) : Nat → Nat → Nat
  | 0, i => i
  | fuel + 1, i => if p i then i else scanLoop p fuel (i + 1)

/-- Range scan of `searchGoal` (main.c lines 331-349): scan rsel = 0..15
at dco = 3, mod = 0; stop at the first overshoot; tie-break against the
previous range; clamp to 15 when no range overshoots.  `prev` in the
source holds the measurement of the range just before the breaking one. -/
def rangeScan (meas : Nat → Nat → Nat → Nat) (goal : Nat) : Nat :=
  let r := scanLoop (fun r => decide (goal < meas r 3 0)) 16 0
  if r < 16 then
    if r ≠ 0 ∧ goal - meas (r - 1) 3 0 < meas r 3 0 - goal then r - 1 else r
  else 15

/-- Step (DCO) scan of `searchGoal` (main.c lines 353-358): the value of
the global `dco` when the loop exits, i.e. the first step in 0..7 whose
measurement overshoots the goal, or 8 when none does. -/
def stepScanFirst (meas : Nat → Nat → Nat → Nat) (goal : Nat) (r : Nat) : Nat :=
  scanLoop (fun d => decide (goal < meas r d 0)) 8 0

/-- Modulation scan loop of `searchGoal` (main.c lines 374-380): first
modulation in 0..31 overshooting the goal at base (r, d), or 32. -/
def modScanFirst (meas : Nat → Nat → Nat → Nat) (goal : Nat) (r d : Nat) : Nat :=
  scanLoop (fun m => decide (goal < meas r d m)) 32 0

/-- The value of the global `mod` right after the mod scan loop, its
tie-break and the clamp (main.c lines 382-392): the first overshooting
modulation, decremented when the previous modulation's undershoot error
was strictly smaller than its overshoot error, and clamped to 31 when
the loop exhausted. -/
def modTieBreak (meas : Nat → Nat → Nat → Nat) (goal : Nat) (r d : Nat) : Nat :=
  let m0 := modScanFirst meas goal r d
  if m0 < 32 then
    (if m0 ≠ 0 ∧ goal - meas r d (m0 - 1) < meas r d m0 - goal then m0 - 1 else m0)
  else 31

/-- Modulation phase of `searchGoal` (main.c lines 374-400): the mod scan
at base (r, d), its tie-break, the clamp to 31, and the special-case
fallback comparing against `m0diff` (the step-scan overshoot recorded
before `dco--`).  Returns the final (dco, mod) pair of globals.  The
comparison `m0diff < AveragedDifference - CurrentNGoal` is on C unsigned
ints and can wrap (when the scan exhausted, `AveragedDifference` is at
most the goal), hence `usub16` there. -/
def modPhase (meas : Nat → Nat → Nat → Nat) (goal : Nat) (r d m0diff : Nat) : Nat × Nat :=
  let m1 := modTieBreak meas goal r d
  if m1 = 31 ∧ m0diff < usub16 (meas r d 31) goal then (d + 1, 0) else (d, m1)

/-- `searchGoal` from main.c (lines 326-407).  `none` models `return 1`
(frequency not achievable); `some (rsel, dco, mod)` models `return 0`
with the final configuration that is re-applied by the last `setDCO`. -/
def searchGoal (meas : Nat → Nat → Nat → Nat) (goal : Nat) : Option (Nat × Nat × Nat) :=
  let r := rangeScan meas goal
  let d0 := stepScanFirst meas goal r
  if 7 < d0 then none
  else if d0 = 0 then none
  else some (r, modPhase meas goal r (d0 - 1) (meas r d0 0 - goal))

/-- The C `int` returned by `searchGoal`: 1 on the two early-return
paths, 0 otherwise. -/
def searchGoalRet (meas : Nat → Nat → Nat → Nat) (goal : Nat) : Nat :=
  match searchGoal meas goal with
  | none => 1
  | some _ => 0

/-- Whether the execution of `searchGoal` reaches the special-case
comparison `if (mod==31) if (m0diff < ...)` (main.c lines 395-400) with
`mod` equal to 31, i.e. whether that fallback comparison is performed.
Mirrors the control flow of `searchGoal` up to that point. -/
def modFallbackChecked (meas : Nat → Nat → Nat → Nat) (goal : Nat) : Bool :=
  let r := rangeScan meas goal
  let d0 := stepScanFirst meas goal r
  if 7 < d0 then false
  else if d0 = 0 then false
  else decide (modTieBreak meas goal r (d0 - 1) = 31)

/-- The base configuration the modulation scan works at: the chosen
range and the decremented step (`dco--` of main.c line 372). -/
def fineBase (meas : Nat → Nat → Nat → Nat) (goal : Nat) : Nat × Nat :=
  (rangeScan meas goal, stepScanFirst meas goal (rangeScan meas goal) - 1)

/-- Concrete measurement function witnessing the modulation-scan
boundary case: the scan at base (0,0) stops at an overshoot exactly at
modulation 31 and the tie-break keeps 31. -/
def cexMeas3 (_r d m : Nat) : Nat :=
  if d = 3 then 200
  else if d = 1 then 120
  else if d = 0 then (if m = 0 then 50 else if m = 31 then 130 else 60)
  else 0

/-! ### Measurement channel (setDCO / CAPTURE0_ISR) -/

/-- The producer/consumer state shared between `CAPTURE0_ISR` and the
control thread: the capture counter `ncap` (a 16-bit signed int, exact
here because it is kept in [-5, 10000]) and the accumulator `Mean`
(a 32-bit unsigned long, accumulated mod 2^32). -/
structure MeasState where
  ncap : Int
  mean : Nat
deriving DecidableEq

/-- CAPTURE0_ISR from main.c (lines 664-679), applied to the delta
`TACCR0 - LastCapture` of the current capture: accumulate the delta
while `0 ≤ ncap < NCAP`, then increment `ncap` unless it reached 10000.
Both tests read the value of `ncap` before the increment, as in the
source. -/
def captureISR (d : Nat) (s : MeasState) : MeasState :=
  { ncap := if s.ncap < 10000 then s.ncap + 1 else s.ncap
  , mean := if 0 ≤ s.ncap ∧ s.ncap < 50 then (s.mean + d) % 4294967296 else s.mean }

/-- The accumulator state right after `setDCO` arms a session
(main.c lines 314-317): `Mean = 0`, `ncap = -5`. -/
def armSession : MeasState := ⟨-5, 0⟩

/-- Deliver a list of capture deltas to the ISR, oldest first. -/
def runCaptures (ds : List Nat) (s : MeasState) : MeasState :=
  ds.foldl (fun s d => captureISR d s) s

/-- The value `setDCO` stores into `AveragedDifference` once the busy
wait ends: `(unsigned int)(Mean/NCAP)` (main.c line 319). -/
def readAverageOf (s : MeasState) : Nat := (s.mean / 50) % 65536

/-- States of the shared accumulator reachable in the program: the
zero-initialized boot state, any number of capture interrupts, the
re-arming done by `setDCO` (under disabled interrupts), and the
debounce reset `ncap = 0` done by `loopFrequencies` (which leaves
`Mean` alone). -/
inductive NcapReach : MeasState → Prop where
  | init : NcapReach ⟨0, 0⟩
  | isr (d : Nat) {s : MeasState} : NcapReach s → NcapReach (captureISR d s)
  | arm {s : MeasState} : NcapReach s → NcapReach armSession
  | debounce {s : MeasState} : NcapReach s → NcapReach ⟨0, s.mean⟩

/-! ### Percent error and the per-target retry loop (main) -/

/-- The exact signed percent error `100*(measured-goal)/goal` computed
in C `long` arithmetic (main.c line 595 before the cast): C division
truncates toward zero, i.e. `Int.tdiv`. -/
def percentErrorExact (ad goal : Nat) : Int :=
  Int.tdiv (100 * ((ad : Int) - (goal : Int))) (goal : Int)

/-- The `(char)` cast applied to that quotient on main.c line 595:
reduction mod 256 into [-128, 127] (plain char is signed on the GCC
toolchain this program targets). -/
def toSignedChar (x : Int) : Int :=
  if x % 256 ≥ 128 then x % 256 - 256 else x % 256

/-- The value of the variable `error` used by main's tolerance test. -/
def percentErrorCode (ad goal : Nat) : Int :=
  toSignedChar (percentErrorExact ad goal)

/-- main.c line 596: `(error<=MAX_ERROR)&&(error>=(-MAX_ERROR))` with
MAX_ERROR = 5. -/
def tolOK (ad goal : Nat) : Bool :=
  percentErrorCode ad goal ≤ 5 && -5 ≤ percentErrorCode ad goal

/-- Outcome of one `searchGoal` attempt inside main's retry loop: the
attempt either fails (`searchGoal` returns 1) or leaves a measured
`AveragedDifference` for the accepted configuration. -/
inductive AttemptResult where
  | notAchievable : AttemptResult
  | measured (ad : Nat) : AttemptResult
deriving DecidableEq

/-- Outcome of main's per-target loop (main.c lines 586-600): `fatal c`
models `errorLock(c)` (2 when an attempt is not achievable, 5 when the
retry ceiling is exhausted); `ok j ad` models breaking out of the loop
at attempt `j` with measurement `ad` in tolerance. -/
inductive TargetOutcome where
  | fatal (code : Nat) : TargetOutcome
  | ok (j : Nat) (ad : Nat) : TargetOutcome
deriving DecidableEq

/-- The loop `for(j=0;j<MAX_CYCLES;j++)` of main.c lines 586-600
followed by the `if (j>=MAX_CYCLES) errorLock(5)` check, with `fuel`
remaining iterations and `j` the current index; `att j` is the outcome
of the `searchGoal` call of attempt `j`. -/
def calibLoopAux (goal : Nat) (att : Nat → AttemptResult) : Nat → Nat → TargetOutcome
  | 0, _ => TargetOutcome.fatal 5
  | fuel + 1, j =>
      match att j with
      | AttemptResult.notAchievable => TargetOutcome.fatal 2
      | AttemptResult.measured ad =>
          if tolOK ad goal then TargetOutcome.ok j ad
          else calibLoopAux goal att fuel (j + 1)

/-- Main's whole per-target retry loop, started at attempt 0 with
MAX_CYCLES iterations available. -/
def calibrateTarget (goal : Nat) (att : Nat → AttemptResult) : TargetOutcome :=
  calibLoopAux goal att MAX_CYCLES 0

/-! ### Calibration store (testFlashEmpty / flashWrite / boot) -/

/-- CalPos from main.c lines 142-150 with the addresses from
NewDCOCal.h: flash address of the DCOCTL byte of each target, in the
order 500kHz, 1M, 2M, 4M, 6M, 8M, 10M, 12M, 16MHz.  The BCSCTL1 byte
of a slot lives at the following address. -/
def CalPosL : List Nat :=
  [0x10AE, 0x10BE, 0x10BC, 0x10BA, 0x10B8, 0x10B6, 0x10B4, 0x10B2, 0x10B0]

/-- Address of slot `i` (out-of-range indices are never used). -/
def CalPos (i : Nat) : Nat := CalPosL.getD i 0

/-- testFlashEmpty from main.c (lines 412-426).  Despite its name it
returns 1 (`true` here) when the section-B zone holds any byte other
than the 0xFF blank sentinel, and 0 (`false`) when the zone is blank. -/
def testFlashEmpty (flash : Nat → Nat) : Bool :=
  (List.range 9).any (fun i => flash (CalPos i) != 255 || flash (CalPos i + 1) != 255)

/-- The (DCOCTL, BCSCTL1) byte pairs `loopFrequencies(1)` programs from
flash, in ascending target order (main.c lines 512-519). -/
def persistedVals (flash : Nat → Nat) : List (Nat × Nat) :=
  (List.range 9).map (fun i => (flash (CalPos i), flash (CalPos i + 1)))

/-- The boot decision of main (lines 563-574), for a build where
neither TEST_MODE nor FLASH_OVERRIDE is defined exactly when both flags
are false: when the store is non-blank, main enters
`loopFrequencies(1)` directly (`some` of the persisted values) and the
calibration code and `flashWrite` below it are never reached; otherwise
(`none`) it falls through to calibration. -/
def bootResume (testMode flashOverride : Bool) (flash : Nat → Nat) :
    Option (List (Nat × Nat)) :=
  if !testMode && !flashOverride && testFlashEmpty flash then some (persistedVals flash)
  else none

/-- The storage-related machine state `flashWrite` acts on: the FCTL3
LOCK bit, the global interrupt enable, and the flash bytes. -/
structure FlashHW where
  lock : Bool
  gie : Bool
  mem : Nat → Nat

/-- Storage-protocol events recorded while `flashWrite` runs, each
tagged with the interrupt-enable state at the moment it happens. -/
inductive FWEvent where
  | unlockEv (gie : Bool) : FWEvent
  | programEv (addr v : Nat) (gie : Bool) : FWEvent
  | relockEv (gie : Bool) : FWEvent
deriving DecidableEq

/-- The interrupt-enable flag an event was recorded under. -/
def eventGie : FWEvent → Bool
  | FWEvent.unlockEv g => g
  | FWEvent.programEv _ _ g => g
  | FWEvent.relockEv g => g

/-- The (address, byte) program sequence of the write loop of
`flashWrite` (main.c lines 470-476): for each target, CalDCO[i] at
CalPos[i] then CalBC1[i] at CalPos[i]+1. -/
def fwProgramList (calDCO calBC1 : Nat → Nat) : List (Nat × Nat) :=
  (List.range 9).flatMap (fun i => [(CalPos i, calDCO i), (CalPos i + 1, calBC1 i)])

/-- One byte-program step of the write loop, threading the machine
state and appending the corresponding event. -/
def fwStep (st : FlashHW × List FWEvent) (av : Nat × Nat) : FlashHW × List FWEvent :=
  ({ st.1 with mem := Function.update st.1.mem av.1 av.2 },
   st.2 ++ [FWEvent.programEv av.1 av.2 st.1.gie])

/-- Result of `flashWrite`: the machine state when the function returns
(or when `errorLock` takes over), `some code` when `errorLock(code)`
was entered from inside `flashWrite`, and the recorded event trace. -/
structure FWResult where
  final : FlashHW
  fatalCode : Option Nat
  trace : List FWEvent

/-- flashWrite from main.c (lines 430-483), no FLASH_OVERRIDE build.
`blDCO`/`blBC1` are the factory segment-A constants CALDCO_1MHZ and
CALBC1_1MHZ used as the write-timing baseline.  The baseline check
comes first and, when it fails, `errorLock(4)` is entered with the
storage state untouched.  Otherwise: `dint()`; DCO registers and FCTL2
timing are set (not part of the modelled storage state); FCTL3 is
written without LOCK (unlock); the write loop programs the 18 bytes;
FCTL1 clears WRT; FCTL3 is written with LOCK; `eint()`. -/
def flashWrite (calDCO calBC1 : Nat → Nat) (blDCO blBC1 : Nat) (s0 : FlashHW) : FWResult :=
  if blBC1 = 255 ∨ blDCO = 255 then
    { final := s0, fatalCode := some 4, trace := [] }
  else
    let s1 : FlashHW := { s0 with gie := false }
    let s2 : FlashHW := { s1 with lock := false }
    let sp := (fwProgramList calDCO calBC1).foldl fwStep (s2, [FWEvent.unlockEv s1.gie])
    let s3 : FlashHW := { sp.1 with lock := true }
    let s4 : FlashHW := { s3 with gie := true }
    { final := s4, fatalCode := none, trace := sp.2 ++ [FWEvent.relockEv sp.1.gie] }

/-! ### Concrete inputs used by witnesses and counterexamples -/

/-- Attempt sequence where attempts 0 and 1 measure far off the goal
and attempt 2 hits it exactly. -/
def attW (j : Nat) : AttemptResult :=
  AttemptResult.measured (if j = 2 then 977 else 5000)

/-- Attempt sequence where every attempt measures far off the goal. -/
def attBad (_ : Nat) : AttemptResult := AttemptResult.measured 5000

/-- A machine state with the flash locked, interrupts enabled, and a
blank section B. -/
def hwInit : FlashHW := { lock := true, gie := true, mem := fun _ => 255 }

/-- A non-blank flash image: the 500kHz DCOCTL slot byte is 0x8D. -/
def flashNB (a : Nat) : Nat := if a = 0x10AE then 0x8D else 255

/-- A constant calibration byte table used in witnesses. -/
def calW1 (_ : Nat) : Nat := 140

/-- A second constant calibration byte table used in witnesses. -/
def calW2 (_ : Nat) : Nat := 135

/-- A measurement function that tracks a simple monotone ramp, used to
exercise `searchGoal` end to end in witnesses. -/
def measW (r d m : Nat) : Nat := 120 * r + 40 * d + m

/-! ### Loop characterization lemmas -/

theorem scanLoop_le (p : Nat → Bool) :
    ∀ (fuel i : Nat), scanLoop p fuel i ≤ i + fuel := by
  intro fuel
  induction fuel with
  | zero => intro i; simp [scanLoop]
  | succ f ih =>
      intro i
      simp only [scanLoop]
      cases hp : p i with
      | true => rw [if_pos rfl]; omega
      | false =>
          rw [if_neg (by simp)]
          have := ih (i + 1)
          omega

theorem scanLoop_ge (p : Nat → Bool) :
    ∀ (fuel i : Nat), i ≤ scanLoop p fuel i := by
  intro fuel
  induction fuel with
  | zero => intro i; simp [scanLoop]
  | succ f ih =>
      intro i
      simp only [scanLoop]
      cases hp : p i with
      | true => rw [if_pos rfl]
      | false =>
          rw [if_neg (by simp)]
          have := ih (i + 1)
          omega

theorem scanLoop_true_of_lt (p : Nat → Bool) :
    ∀ (fuel i : Nat), scanLoop p fuel i < i + fuel → p (scanLoop p fuel i) = true := by
  intro fuel
  induction fuel with
  | zero => intro i h; simp only [scanLoop] at h; omega
  | succ f ih =>
      intro i h
      simp only [scanLoop] at h ⊢
      cases hp : p i with
      | true => rw [if_pos rfl]; exact hp
      | false =>
          rw [if_neg (by simp)]
          rw [if_neg (by simp [hp])] at h
          exact ih (i + 1) (by omega)

theorem scanLoop_min (p : Nat → Bool) :
    ∀ (fuel i j : Nat), i ≤ j → j < scanLoop p fuel i → p j = false := by
  intro fuel
  induction fuel with
  | zero =>
      intro i j hij hj
      simp only [scanLoop] at hj
      omega
  | succ f ih =>
      intro i j hij hj
      simp only [scanLoop] at hj
      cases hp : p i with
      | true => rw [if_pos hp] at hj; omega
      | false =>
          rw [if_neg (by simp [hp])] at hj
          rcases Nat.eq_or_lt_of_le hij with h | h
          · subst h; exact hp
          · exact ih (i + 1) j h hj

theorem scanLoop_of_none (p : Nat → Bool) :
    ∀ (fuel i : Nat), (∀ j, i ≤ j → j < i + fuel → p j = false) →
      scanLoop p fuel i = i + fuel := by
  intro fuel
  induction fuel with
  | zero => intro i _; simp [scanLoop]
  | succ f ih =>
      intro i h
      simp only [scanLoop]
      have hpi : p i = false := h i (Nat.le_refl i) (by omega)
      rw [if_neg (by simp [hpi])]
      have := ih (i + 1) (fun j hj hj2 => h j (by omega) (by omega))
      omega

theorem scanLoop_of_first (p : Nat → Bool) :
    ∀ (fuel i k : Nat), i ≤ k → k < i + fuel → p k = true →
      (∀ j, i ≤ j → j < k → p j = false) → scanLoop p fuel i = k := by
  intro fuel
  induction fuel with
  | zero => intro i k h1 h2 _ _; omega
  | succ f ih =>
      intro i k h1 h2 hk hmin
      simp only [scanLoop]
      rcases Nat.eq_or_lt_of_le h1 with h | h
      · subst h; rw [if_pos hk]
      · have hpi : p i = false := hmin i (Nat.le_refl i) h
        rw [if_neg (by simp [hpi])]
        exact ih (i + 1) k h (by omega) hk (fun j hj hj2 => hmin j (by omega) hj2)

/-! ### Claim theorems -/

/-- C1: in the range scan of `searchGoal`, for ranges 0..15 with step
fixed at 3 and modulation 0, the scan stops at the first range whose
measurement strictly exceeds the goal count; if that stopping range is
nonzero and the preceding range's error from the goal (goal minus its
measurement) is strictly smaller than the stopping range's error (its
measurement minus goal), the preceding range is chosen; and if no range
in 0..15 overshoots, the chosen range is 15. -/
theorem range_scan_correct (meas : Nat → Nat → Nat → Nat) (goal : Nat) :
    ((∀ r, r < 16 → meas r 3 0 ≤ goal) → rangeScan meas goal = 15) ∧
    (∀ r, r < 16 → goal < meas r 3 0 → (∀ r', r' < r → meas r' 3 0 ≤ goal) →
      rangeScan meas goal =
        if r ≠ 0 ∧ goal - meas (r - 1) 3 0 < meas r 3 0 - goal then r - 1 else r) := by
  constructor
  · intro h
    have hs : scanLoop (fun r => decide (goal < meas r 3 0)) 16 0 = 16 := by
      have := scanLoop_of_none (fun r => decide (goal < meas r 3 0)) 16 0
        (fun j _ hj => by
          simp only [decide_eq_false_iff_not, not_lt]
          exact h j (by omega))
      simpa using this
    simp [rangeScan, hs]
  · intro r hr hov hmin
    have hs : scanLoop (fun r => decide (goal < meas r 3 0)) 16 0 = r := by
      apply scanLoop_of_first
      · omega
      · omega
      · simpa using hov
      · intro j _ hj
        simp only [decide_eq_false_iff_not, not_lt]
        exact hmin j hj
    simp only [rangeScan, hs, if_pos hr]

/-- C1 witness: at the ramp measurement and goal 500 the first
overshooting range is 4 and the tie-break picks range 3. -/
theorem range_scan_correct_witness : rangeScan measW 500 = 3 := by
  have h := (range_scan_correct measW 500).2 4 (by decide) (by decide) (by decide)
  simpa using h

theorem scanLoop_zero_iff (p : Nat → Bool) (bound k : Nat) (hk : k ≤ bound) :
    scanLoop p bound 0 = k ↔
      ((∀ j, j < k → p j = false) ∧ (k < bound → p k = true)) := by
  constructor
  · intro h
    constructor
    · intro j hj
      exact scanLoop_min p bound 0 j (Nat.zero_le j) (by omega)
    · intro hkb
      have ht := scanLoop_true_of_lt p bound 0 (by omega)
      rwa [h] at ht
  · rintro ⟨h1, h2⟩
    rcases Nat.eq_or_lt_of_le hk with he | hlt
    · have h := scanLoop_of_none p bound 0 (fun j _ hj => h1 j (by omega))
      omega
    · exact scanLoop_of_first p bound 0 k (Nat.zero_le k) (by omega) (h2 hlt)
        (fun j _ hj => h1 j hj)

theorem stepScanFirst_le (meas : Nat → Nat → Nat → Nat) (goal r : Nat) :
    stepScanFirst meas goal r ≤ 8 := by
  simpa using scanLoop_le (fun d => decide (goal < meas r d 0)) 8 0

theorem stepScanFirst_eq_iff (meas : Nat → Nat → Nat → Nat) (goal r k : Nat) (hk : k ≤ 8) :
    stepScanFirst meas goal r = k ↔
      ((∀ j, j < k → meas r j 0 ≤ goal) ∧ (k < 8 → goal < meas r k 0)) := by
  unfold stepScanFirst
  rw [scanLoop_zero_iff _ 8 k hk]
  simp only [decide_eq_false_iff_not, not_lt, decide_eq_true_eq]

theorem modScanFirst_le (meas : Nat → Nat → Nat → Nat) (goal r d : Nat) :
    modScanFirst meas goal r d ≤ 32 := by
  simpa using scanLoop_le (fun m => decide (goal < meas r d m)) 32 0

theorem modScanFirst_eq_iff (meas : Nat → Nat → Nat → Nat) (goal r d k : Nat) (hk : k ≤ 32) :
    modScanFirst meas goal r d = k ↔
      ((∀ j, j < k → meas r d j ≤ goal) ∧ (k < 32 → goal < meas r d k)) := by
  unfold modScanFirst
  rw [scanLoop_zero_iff _ 32 k hk]
  simp only [decide_eq_false_iff_not, not_lt, decide_eq_true_eq]

/-- C2: `searchGoal` returns 1 (NotAchievable, modelled `none`) exactly
when, in the step scan at the chosen range with modulation 0, either no
step in 0..7 overshoots the goal or the first overshooting step is step
0; in every other case the scan proceeds to the modulation phase with
step-1 as the fine-tune base (and the recorded overshoot error of the
first overshooting step), and `searchGoal` does not return 1. -/
theorem step_scan_not_achievable (meas : Nat → Nat → Nat → Nat) (goal : Nat) :
    (searchGoal meas goal = none ↔
      (goal < meas (rangeScan meas goal) 0 0 ∨
        ∀ d, d < 8 → meas (rangeScan meas goal) d 0 ≤ goal)) ∧
    (∀ d0, d0 < 8 → d0 ≠ 0 → goal < meas (rangeScan meas goal) d0 0 →
      (∀ d, d < d0 → meas (rangeScan meas goal) d 0 ≤ goal) →
      searchGoal meas goal =
        some (rangeScan meas goal,
          modPhase meas goal (rangeScan meas goal) (d0 - 1)
            (meas (rangeScan meas goal) d0 0 - goal))) := by
  constructor
  · constructor
    · intro h
      by_cases h7 : 7 < stepScanFirst meas goal (rangeScan meas goal)
      · right
        have h8 : stepScanFirst meas goal (rangeScan meas goal) = 8 := by
          have := stepScanFirst_le meas goal (rangeScan meas goal)
          omega
        have := (stepScanFirst_eq_iff meas goal _ 8 (Nat.le_refl 8)).mp h8
        exact fun d hd => this.1 d hd
      · by_cases h0 : stepScanFirst meas goal (rangeScan meas goal) = 0
        · left
          have := (stepScanFirst_eq_iff meas goal _ 0 (by omega)).mp h0
          exact this.2 (by omega)
        · exfalso
          simp only [searchGoal, if_neg h7, if_neg h0] at h
          exact Option.noConfusion h
    · intro h
      rcases h with h | h
      · have h0 : stepScanFirst meas goal (rangeScan meas goal) = 0 :=
          (stepScanFirst_eq_iff meas goal _ 0 (by omega)).mpr
            ⟨fun j hj => absurd hj (by omega), fun _ => h⟩
        simp [searchGoal, h0]
      · have h8 : stepScanFirst meas goal (rangeScan meas goal) = 8 :=
          (stepScanFirst_eq_iff meas goal _ 8 (Nat.le_refl 8)).mpr
            ⟨fun j hj => h j hj, fun hc => absurd hc (by omega)⟩
        simp [searchGoal, h8]
  · intro d0 hd8 hd0 hov hmin
    have hd : stepScanFirst meas goal (rangeScan meas goal) = d0 :=
      (stepScanFirst_eq_iff meas goal _ d0 (by omega)).mpr
        ⟨fun j hj => hmin j hj, fun _ => hov⟩
    simp only [searchGoal, hd]
    rw [if_neg (by omega), if_neg hd0]

/-- C2 witness: at the ramp measurement and goal 500 the first
overshooting step at range 3 is step 4, so the search fine-tunes at
step 3 and returns the configuration (3, 3, 20) rather than failing. -/
theorem step_scan_not_achievable_witness : searchGoal measW 500 = some (3, 3, 20) := by
  have h := (step_scan_not_achievable measW 500).2 4 (by decide) (by decide)
    (by decide) (by decide)
  exact h.trans (by decide)

theorem modTieBreak_eq_31_iff (meas : Nat → Nat → Nat → Nat) (goal r d : Nat) :
    modTieBreak meas goal r d = 31 ↔
      ((∀ m, m < 32 → meas r d m ≤ goal) ∨
       ((∀ m, m < 31 → meas r d m ≤ goal) ∧ goal < meas r d 31 ∧
        ¬ (goal - meas r d 30 < meas r d 31 - goal))) := by
  unfold modTieBreak
  have hle := modScanFirst_le meas goal r d
  have hch := (modScanFirst_eq_iff meas goal r d (modScanFirst meas goal r d) hle).mp rfl
  have h30 : (31 : Nat) - 1 = 30 := rfl
  by_cases h32 : modScanFirst meas goal r d < 32
  · rw [if_pos h32]
    by_cases hc : modScanFirst meas goal r d ≠ 0 ∧
        goal - meas r d (modScanFirst meas goal r d - 1) <
          meas r d (modScanFirst meas goal r d) - goal
    · rw [if_pos hc]
      constructor
      · intro h; omega
      · rintro (h | ⟨hlt31, hov, hnc⟩)
        · exfalso
          have h1 := hch.2 h32
          have h2 := h (modScanFirst meas goal r d) h32
          omega
        · exfalso
          have hm0 : modScanFirst meas goal r d = 31 :=
            (modScanFirst_eq_iff meas goal r d 31 (by omega)).mpr ⟨hlt31, fun _ => hov⟩
          rw [hm0, h30] at hc
          exact hnc hc.2
    · rw [if_neg hc]
      constructor
      · intro h
        right
        have hich := (modScanFirst_eq_iff meas goal r d 31 (by omega)).mp h
        refine ⟨hich.1, hich.2 (by omega), ?_⟩
        intro hlt
        apply hc
        refine ⟨by omega, ?_⟩
        rw [h, h30]
        exact hlt
      · rintro (h | ⟨hlt31, hov, hnc⟩)
        · exfalso
          have h1 := hch.2 h32
          have h2 := h (modScanFirst meas goal r d) h32
          omega
        · exact (modScanFirst_eq_iff meas goal r d 31 (by omega)).mpr
            ⟨hlt31, fun _ => hov⟩
  · rw [if_neg h32]
    constructor
    · intro _
      left
      have hm0 : modScanFirst meas goal r d = 32 := by omega
      have := (modScanFirst_eq_iff meas goal r d 32 (by omega)).mp hm0
      exact fun m hm => this.1 m hm
    · intro _; rfl

/-- C3 counterexample: with the measurement `cexMeas3` and goal 100 the
search reaches the modulation phase at base (0, 0); the modulation scan
does not exhaust (modulation 31 measures 130 > 100), yet the fallback
comparison is performed — and it even fires, producing final
configuration (0, 1, 0) — refuting the claim that the comparison is
performed only when the scan exhausted without overshoot. -/
theorem mod_fallback_check_cex :
    rangeScan cexMeas3 100 = 0 ∧ stepScanFirst cexMeas3 100 0 = 1 ∧
    modFallbackChecked cexMeas3 100 = true ∧
    ¬ (∀ m, m < 32 → cexMeas3 0 0 m ≤ 100) ∧
    searchGoal cexMeas3 100 = some (0, 1, 0) := by decide

/-- C3 (amended): the fallback comparison against the step-scan's
recorded overshoot error is performed exactly when the search reaches
the modulation phase and the modulation value left by the scan and its
tie-break equals 31 — that is, either the scan exhausted all values
0..31 without any measurement exceeding the goal (modulation clamped to
31), or the scan stopped at an overshooting modulation 31 and the
tie-break retained it.  It is therefore not restricted to the
exhaustion case. -/
theorem mod_fallback_check_amended (meas : Nat → Nat → Nat → Nat) (goal : Nat) :
    modFallbackChecked meas goal = true ↔
      (searchGoal meas goal ≠ none ∧
        ((∀ m, m < 32 → meas (fineBase meas goal).1 (fineBase meas goal).2 m ≤ goal) ∨
         ((∀ m, m < 31 → meas (fineBase meas goal).1 (fineBase meas goal).2 m ≤ goal) ∧
          goal < meas (fineBase meas goal).1 (fineBase meas goal).2 31 ∧
          ¬ (goal - meas (fineBase meas goal).1 (fineBase meas goal).2 30 <
              meas (fineBase meas goal).1 (fineBase meas goal).2 31 - goal)))) := by
  by_cases h7 : 7 < stepScanFirst meas goal (rangeScan meas goal)
  · simp only [modFallbackChecked, searchGoal, if_pos h7]
    simp
  · by_cases h0 : stepScanFirst meas goal (rangeScan meas goal) = 0
    · simp only [modFallbackChecked, searchGoal, if_neg h7, if_pos h0]
      simp
    · simp only [modFallbackChecked, searchGoal, fineBase, if_neg h7, if_neg h0,
        decide_eq_true_eq]
      rw [modTieBreak_eq_31_iff]
      simp

theorem runCaptures_append (l1 l2 : List Nat) (s : MeasState) :
    runCaptures (l1 ++ l2) s = runCaptures l2 (runCaptures l1 s) := by
  simp [runCaptures, List.foldl_append]

theorem runCaptures_settle : ∀ (ds : List Nat) (n : Int), -5 ≤ n →
    n + ds.length ≤ 0 → runCaptures ds ⟨n, 0⟩ = ⟨n + ds.length, 0⟩ := by
  intro ds
  induction ds with
  | nil => intro n _ _; simp [runCaptures]
  | cons d t ih =>
      intro n h2 h3
      simp only [List.length_cons] at h3
      have hn : n < 0 := by
        have : (0 : Int) ≤ t.length := Int.ofNat_nonneg t.length
        omega
      have hstep : captureISR d ⟨n, 0⟩ = ⟨n + 1, 0⟩ := by
        unfold captureISR
        simp only [MeasState.mk.injEq]
        constructor
        · rw [if_pos (by omega)]
        · rw [if_neg (by omega)]
      simp only [runCaptures, List.foldl_cons] at *
      rw [hstep]
      have := ih (n + 1) (by omega) (by omega)
      rw [this]
      simp only [MeasState.mk.injEq, List.length_cons, and_true]
      push_cast
      omega

theorem runCaptures_accum : ∀ (ds : List Nat) (n : Int) (m : Nat),
    0 ≤ n → n + ds.length ≤ 50 → m ≤ 65535 * n.toNat →
    (∀ d ∈ ds, d < 65536) →
    runCaptures ds ⟨n, m⟩ = ⟨n + ds.length, m + ds.sum⟩ := by
  intro ds
  induction ds with
  | nil => intro n m _ _ _ _; simp [runCaptures]
  | cons d t ih =>
      intro n m h0 h50 hm hb
      have hd : d < 65536 := hb d (List.mem_cons_self d t)
      have hlt : (0 : Int) ≤ t.length := Int.ofNat_nonneg t.length
      simp only [List.length_cons] at h50
      have hn50 : n < 50 := by push_cast at h50; omega
      have hnn : n.toNat ≤ 49 := by omega
      have hstep : captureISR d ⟨n, m⟩ = ⟨n + 1, m + d⟩ := by
        unfold captureISR
        simp only [MeasState.mk.injEq]
        constructor
        · rw [if_pos (by omega)]
        · rw [if_pos ⟨h0, hn50⟩]
          exact Nat.mod_eq_of_lt (by omega)
      simp only [runCaptures, List.foldl_cons] at *
      rw [hstep]
      have := ih (n + 1) (m + d) (by omega) (by omega)
        (by omega) (fun x hx => hb x (List.mem_cons_of_mem d hx))
      rw [this]
      simp only [MeasState.mk.injEq, List.sum_cons, List.length_cons]
      constructor
      · push_cast; omega
      · omega

/-- C4: a completed measurement session averages exactly NCAP = 50
capture deltas: after `setDCO` arms the session, the first 5 captures
are discarded, the next 50 deltas are summed, the busy-wait
`while (ncap<NCAP)` does not terminate before the 55th capture, and
the returned `AveragedDifference` is the integer quotient of that sum
by 50. -/
theorem session_average (ds : List Nat) (hlen : ds.length = 55)
    (hb : ∀ d ∈ ds, d < 65536) :
    (runCaptures ds armSession).ncap = 50 ∧
    (runCaptures ds armSession).mean = (ds.drop 5).sum ∧
    readAverageOf (runCaptures ds armSession) = (ds.drop 5).sum / 50 ∧
    (∀ k, k < 55 → (runCaptures (ds.take k) armSession).ncap < 50) := by
  have htake5 : (ds.take 5).length = 5 := by rw [List.length_take]; omega
  have hdrop5 : (ds.drop 5).length = 50 := by rw [List.length_drop]; omega
  have h1 : runCaptures (ds.take 5) armSession = ⟨0, 0⟩ := by
    have := runCaptures_settle (ds.take 5) (-5) (by omega) (by rw [htake5]; norm_num)
    rw [htake5] at this
    simpa [armSession] using this
  have h2 : runCaptures (ds.drop 5) ⟨0, 0⟩ = ⟨50, (ds.drop 5).sum⟩ := by
    have := runCaptures_accum (ds.drop 5) 0 0 (by omega) (by rw [hdrop5]; norm_num)
      (by omega) (fun x hx => hb x (List.drop_subset 5 ds hx))
    rw [hdrop5] at this
    simpa using this
  have hfull : runCaptures ds armSession = ⟨50, (ds.drop 5).sum⟩ := by
    conv_lhs => rw [← List.take_append_drop 5 ds]
    rw [runCaptures_append, h1, h2]
  have hsum : (ds.drop 5).sum ≤ 50 * 65535 := by
    have := List.sum_le_card_nsmul (ds.drop 5) 65535
      (fun x hx => Nat.le_of_lt_succ (hb x (List.drop_subset 5 ds hx)))
    rw [hdrop5] at this
    simpa [smul_eq_mul] using this
  refine ⟨by rw [hfull], by rw [hfull], ?_, ?_⟩
  · rw [hfull]
    unfold readAverageOf
    have hq : (ds.drop 5).sum / 50 < 65536 := by
      rw [Nat.div_lt_iff_lt_mul (by norm_num)]
      omega
    exact Nat.mod_eq_of_lt hq
  · intro k hk
    by_cases hk5 : k ≤ 5
    · have hlt : (ds.take k).length = k := by rw [List.length_take]; omega
      have := runCaptures_settle (ds.take k) (-5) (by omega) (by rw [hlt]; omega)
      rw [hlt] at this
      simp only [armSession] at this ⊢
      rw [this]
      show (-5 : Int) + (k : Int) < 50
      omega
    · have hsplit : ds.take k = ds.take 5 ++ (ds.drop 5).take (k - 5) := by
        conv_lhs => rw [show k = 5 + (k - 5) by omega]
        rw [List.take_add]
      have hlt : ((ds.drop 5).take (k - 5)).length = k - 5 := by
        rw [List.length_take, hdrop5]; omega
      rw [hsplit, runCaptures_append, h1]
      have := runCaptures_accum ((ds.drop 5).take (k - 5)) 0 0 (by omega)
        (by rw [hlt]; omega) (by omega)
        (fun x hx => hb x (List.drop_subset 5 ds (List.take_subset (k - 5) (ds.drop 5) hx)))
      rw [hlt] at this
      rw [this]
      show (0 : Int) + ((k - 5 : Nat) : Int) < 50
      omega

/-- C4 witness: a concrete 55-delta session of constant deltas 1000
settles for 5 captures, sums the next 50, and averages to 1000. -/
theorem session_average_witness :
    (runCaptures (List.replicate 55 1000) armSession).ncap = 50 ∧
    readAverageOf (runCaptures (List.replicate 55 1000) armSession) = 1000 := by
  have h := session_average (List.replicate 55 1000) (by simp)
    (by intro d hd; rw [List.eq_of_mem_replicate hd]; omega)
  refine ⟨h.1, ?_⟩
  rw [h.2.2.1]
  decide

/-- C5 counterexample: at goal 977 and measured value 3479 the exact
percent error is 256, but the `(char)` cast on main.c line 595 reduces
the value used for the tolerance test to 0, so the attempt is accepted
although the exact percent error is far outside the ±5 tolerance —
refuting the claim that the value used for the acceptance decision
equals the exact integer quotient for every possible measured value. -/
theorem percent_error_cex :
    percentErrorExact 3479 977 = 256 ∧ percentErrorCode 3479 977 = 0 ∧
    tolOK 3479 977 = true ∧
    percentErrorCode 3479 977 ≠ percentErrorExact 3479 977 := by decide

/-- C5 (amended): the attempt is accepted exactly when the
`(char)`-reduced percent error lies within ±MAX_ERROR = 5; that reduced
value always lies in [-128, 127], is congruent mod 256 to the exact
integer quotient `100*(measured-goal)/goal`, and equals the exact
quotient precisely when the exact quotient itself lies in [-128, 127]
(so for measured values whose exact percent error leaves that window,
the value used by the decision differs from the exact quotient). -/
theorem percent_error_amended (ad goal : Nat) :
    (tolOK ad goal = true ↔
      (-5 ≤ percentErrorCode ad goal ∧ percentErrorCode ad goal ≤ 5)) ∧
    (-128 ≤ percentErrorCode ad goal ∧ percentErrorCode ad goal ≤ 127) ∧
    (percentErrorCode ad goal - percentErrorExact ad goal) % 256 = 0 ∧
    (percentErrorCode ad goal = percentErrorExact ad goal ↔
      (-128 ≤ percentErrorExact ad goal ∧ percentErrorExact ad goal ≤ 127)) := by
  have htol : tolOK ad goal = true ↔
      (percentErrorCode ad goal ≤ 5 ∧ -5 ≤ percentErrorCode ad goal) := by
    unfold tolOK
    rw [Bool.and_eq_true, decide_eq_true_eq, decide_eq_true_eq]
  have hcode : percentErrorCode ad goal =
      if percentErrorExact ad goal % 256 ≥ 128 then percentErrorExact ad goal % 256 - 256
      else percentErrorExact ad goal % 256 := rfl
  rw [htol, hcode]
  by_cases hr : percentErrorExact ad goal % 256 ≥ 128
  · rw [if_pos hr]
    omega
  · rw [if_neg hr]
    omega

theorem calibLoopAux_agree (goal : Nat) (att att' : Nat → AttemptResult) :
    ∀ (fuel j : Nat), (∀ i, j ≤ i → i < j + fuel → att i = att' i) →
      calibLoopAux goal att fuel j = calibLoopAux goal att' fuel j := by
  intro fuel
  induction fuel with
  | zero => intro j _; rfl
  | succ f ih =>
      intro j h
      simp only [calibLoopAux]
      rw [← h j (Nat.le_refl j) (by omega)]
      cases hA : att j with
      | notAchievable => rfl
      | measured ad =>
          dsimp only
          by_cases ht : tolOK ad goal = true
          · rw [if_pos ht, if_pos ht]
          · rw [if_neg ht, if_neg ht]
            exact ih (j + 1) (fun i hi hi2 => h i (by omega) (by omega))

theorem calibLoopAux_all_miss (goal : Nat) (att : Nat → AttemptResult) :
    ∀ (fuel j : Nat),
      (∀ i, j ≤ i → i < j + fuel →
        ∃ ad, att i = AttemptResult.measured ad ∧ tolOK ad goal = false) →
      calibLoopAux goal att fuel j = TargetOutcome.fatal 5 := by
  intro fuel
  induction fuel with
  | zero => intro j _; rfl
  | succ f ih =>
      intro j h
      obtain ⟨ad, hA, ht⟩ := h j (Nat.le_refl j) (by omega)
      simp only [calibLoopAux, hA]
      rw [if_neg (by simp [ht])]
      exact ih (j + 1) (fun i hi hi2 => h i (by omega) (by omega))

theorem calibLoopAux_first_hit (goal : Nat) (att : Nat → AttemptResult) :
    ∀ (fuel j k ad : Nat), j ≤ k → k < j + fuel →
      att k = AttemptResult.measured ad → tolOK ad goal = true →
      (∀ i, j ≤ i → i < k →
        ∃ a, att i = AttemptResult.measured a ∧ tolOK a goal = false) →
      calibLoopAux goal att fuel j = TargetOutcome.ok k ad := by
  intro fuel
  induction fuel with
  | zero => intro j k ad h1 h2 _ _ _; omega
  | succ f ih =>
      intro j k ad h1 h2 hA ht hmin
      rcases Nat.eq_or_lt_of_le h1 with he | hlt
      · subst he
        simp only [calibLoopAux, hA]
        rw [if_pos ht]
      · obtain ⟨a, haA, hat⟩ := hmin j (Nat.le_refl j) hlt
        simp only [calibLoopAux, haA]
        rw [if_neg (by simp [hat])]
        exact ih (j + 1) k ad hlt (by omega) hA ht
          (fun i hi hi2 => hmin i (by omega) hi2)

/-- C6: main performs at most MAX_CYCLES = 10 search attempts per
target (the outcome depends only on the outcomes of attempts 0..9);
when all ten attempts yield measurements whose percent error is out of
tolerance, the loop exhausts and falls into `errorLock(5)` — the
terminal FATAL state OUT_OF_TOLERANCE; and as soon as some attempt is
within tolerance the loop breaks there, skipping all remaining
attempts. -/
theorem retry_ceiling (goal : Nat) (att att' : Nat → AttemptResult) :
    ((∀ i, i < 10 → att i = att' i) →
      calibrateTarget goal att = calibrateTarget goal att') ∧
    ((∀ i, i < 10 →
        ∃ ad, att i = AttemptResult.measured ad ∧ tolOK ad goal = false) →
      calibrateTarget goal att = TargetOutcome.fatal 5) ∧
    (∀ k ad, k < 10 → att k = AttemptResult.measured ad → tolOK ad goal = true →
      (∀ i, i < k →
        ∃ a, att i = AttemptResult.measured a ∧ tolOK a goal = false) →
      calibrateTarget goal att = TargetOutcome.ok k ad) := by
  refine ⟨?_, ?_, ?_⟩
  · intro h
    exact calibLoopAux_agree goal att att' 10 0 (fun i hi hi2 => h i (by omega))
  · intro h
    exact calibLoopAux_all_miss goal att 10 0 (fun i hi hi2 => h i (by omega))
  · intro k ad hk hA ht hmin
    exact calibLoopAux_first_hit goal att 10 0 k ad (Nat.zero_le k) (by omega) hA ht
      (fun i hi hi2 => hmin i hi2)

/-- C6 witness: with attempts that miss twice (measuring 5000 against
goal 977) and hit exactly at attempt 2, the loop accepts attempt 2. -/
theorem retry_ceiling_witness : calibrateTarget 977 attW = TargetOutcome.ok 2 977 := by
  have h := (retry_ceiling 977 attW attW).2.2 2 977 (by omega) (by decide) (by decide)
    (by
      intro i hi
      refine ⟨5000, ?_, by decide⟩
      unfold attW
      rw [if_neg (by omega)])
  exact h

/-- C7: when the persistent store is non-blank (some reserved slot byte
differs from the 0xFF blank sentinel) and neither TEST_MODE nor
FLASH_OVERRIDE is configured, boot goes straight to run mode on the
values read from the persisted slots — the calibration loop and
`flashWrite` sit on the other branch and never execute — and since the
resume path never writes the store, any repeated boot from the same
store state replays the identical persisted values. -/
theorem resume_path (flash : Nat → Nat)
    (h : ∃ i, i < 9 ∧ (flash (CalPos i) ≠ 255 ∨ flash (CalPos i + 1) ≠ 255)) :
    bootResume false false flash = some (persistedVals flash) ∧
    (∀ g : Nat → Nat, (∀ a, g a = flash a) →
      bootResume false false g = some (persistedVals flash)) := by
  have hne : testFlashEmpty flash = true := by
    obtain ⟨i, hi9, hio⟩ := h
    unfold testFlashEmpty
    rw [List.any_eq_true]
    refine ⟨i, List.mem_range.mpr hi9, ?_⟩
    rcases hio with hio | hio <;> simp [hio]
  constructor
  · unfold bootResume
    simp [hne]
  · intro g hg
    have hgf : g = flash := funext hg
    rw [hgf]
    unfold bootResume
    simp [hne]

/-- C7 witness: a store whose 500kHz DCOCTL byte holds 0x8D resumes
directly with the persisted values. -/
theorem resume_path_witness :
    bootResume false false flashNB = some (persistedVals flashNB) :=
  (resume_path flashNB ⟨0, by omega, Or.inl (by decide)⟩).1

/-- C8 counterexample: with a blank 1MHz factory baseline, `flashWrite`
itself invokes the terminal error lock `errorLock(4)` (main.c lines
439-440) instead of returning a failure result for the operating
controller to escalate — refuting the claim that neither the search
engine nor the calibration store ever transitions the system into the
terminal FATAL state on its own. -/
theorem component_fatality_cex :
    (flashWrite calW1 calW2 255 255 hwInit).fatalCode = some 4 := by decide

/-- C8 (amended): `searchGoal` indeed always returns 0 or 1 and never
enters the error lock; the store's write, however, does not report its
baseline failure to the caller: `errorLock(4)` is entered from inside
`flashWrite` exactly when the factory 1MHz baseline bytes are blank
(0xFF), and only the success path returns normally. -/
theorem component_fatality_amended (meas : Nat → Nat → Nat → Nat) (goal : Nat)
    (calDCO calBC1 : Nat → Nat) (blDCO blBC1 : Nat) (s0 : FlashHW) :
    (searchGoalRet meas goal = 0 ∨ searchGoalRet meas goal = 1) ∧
    ((flashWrite calDCO calBC1 blDCO blBC1 s0).fatalCode = some 4 ↔
      (blBC1 = 255 ∨ blDCO = 255)) := by
  constructor
  · unfold searchGoalRet
    cases searchGoal meas goal with
    | none => right; rfl
    | some c => left; rfl
  · unfold flashWrite
    by_cases hb : blBC1 = 255 ∨ blDCO = 255
    · rw [if_pos hb]
      simpa using hb
    · rw [if_neg hb]
      simpa using hb

theorem fwFold_gie (l : List (Nat × Nat)) :
    ∀ (s : FlashHW) (tr : List FWEvent),
      (l.foldl fwStep (s, tr)).1.gie = s.gie ∧
      (∀ e ∈ (l.foldl fwStep (s, tr)).2, e ∈ tr ∨ eventGie e = s.gie) := by
  induction l with
  | nil =>
      intro s tr
      exact ⟨rfl, fun e he => Or.inl he⟩
  | cons a t ih =>
      intro s tr
      simp only [List.foldl_cons]
      have hstep : fwStep (s, tr) a =
          ({ s with mem := Function.update s.mem a.1 a.2 },
           tr ++ [FWEvent.programEv a.1 a.2 s.gie]) := rfl
      rw [hstep]
      have h := ih { s with mem := Function.update s.mem a.1 a.2 }
        (tr ++ [FWEvent.programEv a.1 a.2 s.gie])
      refine ⟨h.1, ?_⟩
      intro e he
      rcases h.2 e he with he2 | he2
      · rcases List.mem_append.mp he2 with h3 | h3
        · exact Or.inl h3
        · right
          have he4 : e = FWEvent.programEv a.1 a.2 s.gie := by simpa using h3
          rw [he4]
          rfl
      · exact Or.inr he2

theorem flashWrite_eq_of_ok (calDCO calBC1 : Nat → Nat) (blDCO blBC1 : Nat)
    (s0 : FlashHW) (hb : ¬ (blBC1 = 255 ∨ blDCO = 255)) :
    flashWrite calDCO calBC1 blDCO blBC1 s0 =
      { final := { ((fwProgramList calDCO calBC1).foldl fwStep
            ({ s0 with gie := false, lock := false }, [FWEvent.unlockEv false])).1
            with lock := true, gie := true }
      , fatalCode := none
      , trace := ((fwProgramList calDCO calBC1).foldl fwStep
            ({ s0 with gie := false, lock := false }, [FWEvent.unlockEv false])).2
          ++ [FWEvent.relockEv (((fwProgramList calDCO calBC1).foldl fwStep
            ({ s0 with gie := false, lock := false }, [FWEvent.unlockEv false])).1).gie] } := by
  unfold flashWrite
  rw [if_neg hb]

/-- C9: in every execution of `flashWrite`, the baseline check comes
before any storage-state modification — on the NO_BASELINE failure
path `errorLock(4)` takes over with the store untouched, an empty
modification trace, and (the lock having been set on entry) the lock
bit still set; every unlock and byte-program event of the write
sequence is recorded with interrupts disabled; and on every exit path,
success or failure, the lock bit is set in the final state. -/
theorem flash_write_protocol (calDCO calBC1 : Nat → Nat) (blDCO blBC1 : Nat)
    (s0 : FlashHW) (hlock : s0.lock = true) :
    ((blBC1 = 255 ∨ blDCO = 255) →
      flashWrite calDCO calBC1 blDCO blBC1 s0 =
        { final := s0, fatalCode := some 4, trace := [] }) ∧
    (∀ e ∈ (flashWrite calDCO calBC1 blDCO blBC1 s0).trace, eventGie e = false) ∧
    (flashWrite calDCO calBC1 blDCO blBC1 s0).final.lock = true := by
  by_cases hb : blBC1 = 255 ∨ blDCO = 255
  · have heq : flashWrite calDCO calBC1 blDCO blBC1 s0 =
        { final := s0, fatalCode := some 4, trace := [] } := by
      unfold flashWrite
      rw [if_pos hb]
    refine ⟨fun _ => heq, ?_, ?_⟩
    · rw [heq]
      intro e he
      simp at he
    · rw [heq]
      exact hlock
  · rw [flashWrite_eq_of_ok calDCO calBC1 blDCO blBC1 s0 hb]
    refine ⟨fun hc => absurd hc hb, ?_, rfl⟩
    intro e he
    have h := fwFold_gie (fwProgramList calDCO calBC1)
      { s0 with gie := false, lock := false } [FWEvent.unlockEv false]
    rcases List.mem_append.mp he with h1 | h1
    · rcases h.2 e h1 with h2 | h2
      · have he4 : e = FWEvent.unlockEv false := by simpa using h2
        rw [he4]
        rfl
      · exact h2
    · have he4 : e = FWEvent.relockEv (((fwProgramList calDCO calBC1).foldl fwStep
          ({ s0 with gie := false, lock := false }, [FWEvent.unlockEv false])).1).gie := by
        simpa using h1
      rw [he4]
      exact h.1

/-- C9 witness: at a blank-baseline input with an initially locked
store, the write fails fatally (code 4) and the lock bit is still set
in the final state. -/
theorem flash_write_protocol_witness :
    (flashWrite calW1 calW2 255 7 hwInit).fatalCode = some 4 ∧
    (flashWrite calW1 calW2 255 7 hwInit).final.lock = true := by
  have h := flash_write_protocol calW1 calW2 255 7 hwInit rfl
  refine ⟨?_, h.2.2⟩
  rw [h.1 (Or.inr rfl)]

/-- C10: the shared sample counter `ncap` is saturating: the capture
interrupt increments it only while it is below 10000, so every state
reachable through boot, capture interrupts, session re-arming and the
debounce reset keeps `ncap` within [-5, 10000] (far below the 16-bit
signed overflow bound), the interrupt never decreases it, and the
10000 ceiling is absorbing — no matter how many reference ticks fire
before the control thread next resets it. -/
theorem ncap_saturating :
    (∀ s, NcapReach s → -5 ≤ s.ncap ∧ s.ncap ≤ 10000) ∧
    (∀ d s, s.ncap ≤ (captureISR d s).ncap) ∧
    (∀ d s, s.ncap ≤ 10000 → (captureISR d s).ncap ≤ 10000) := by
  refine ⟨?_, ?_, ?_⟩
  · intro s h
    induction h with
    | init => exact ⟨by norm_num, by norm_num⟩
    | isr d hs ih =>
        show -5 ≤ (if _ < 10000 then _ + 1 else _) ∧ (if _ < 10000 then _ + 1 else _) ≤ 10000
        split <;> omega
    | arm hs ih => exact ⟨by norm_num [armSession], by norm_num [armSession]⟩
    | debounce hs ih => exact ⟨by norm_num, by norm_num⟩
  · intro d s
    show s.ncap ≤ (if s.ncap < 10000 then s.ncap + 1 else s.ncap)
    split <;> omega
  · intro d s h
    show (if s.ncap < 10000 then s.ncap + 1 else s.ncap) ≤ 10000
    split <;> omega

/-- C10 witness: the boot state is reachable and satisfies the bounds. -/
theorem ncap_saturating_witness :
    -5 ≤ (MeasState.mk 0 0).ncap ∧ (MeasState.mk 0 0).ncap ≤ 10000 :=
  ncap_saturating.1 ⟨0, 0⟩ NcapReach.init

/-- C3 amended-claim witness: at `cexMeas3` the right-hand side holds
through the break-at-31 disjunct, so the comparison is performed. -/
theorem mod_fallback_check_amended_witness : modFallbackChecked cexMeas3 100 = true :=
  (mod_fallback_check_amended cexMeas3 100).mpr
    ⟨by decide, Or.inr ⟨by decide, by decide, by decide⟩⟩

/-- C5 amended-claim witness: an exact measurement is accepted. -/
theorem percent_error_amended_witness : tolOK 977 977 = true :=
  (percent_error_amended 977 977).1.mpr (by decide)

/-- C8 amended-claim witness: with a present baseline, `flashWrite`
does not enter the error lock. -/
theorem component_fatality_amended_witness :
    (flashWrite calW1 calW2 140 135 hwInit).fatalCode ≠ some 4 := by
  have h := (component_fatality_amended measW 500 calW1 calW2 140 135 hwInit).2
  intro hc
  rcases h.mp hc with h1 | h1 <;> omega

end DCOCal
